/-
Verification of the core pipeline of the transcription service:
job lifecycle (web/services/job_manager.py), result cache
(enhancement/performance_optimizations.py), chunked processing
(poc/chunked_processor.py), streaming buffer
(web/services/streaming_transcriber.py) and recording sessions
(web/services/recording_session.py).

Modelling conventions:
* Python floats are modelled as exact rationals (ℚ); the claims under
  study are about field-level dataflow and list structure, not about
  binary rounding of IEEE floats.
* Wall-clock readings (`datetime.now()`, `time.time()`) are passed in
  explicitly as a rational parameter `now`.
* Raw byte strings are modelled as `List ℕ` (one entry per byte).
* Python truthiness is modelled field by field: an `Optional[str]` is
  truthy iff it is `some s` with `s ≠ ""`; an `Optional[dict]` is truthy
  iff it is `some d` with `d ≠ []`.
-/
import Mathlib

/-- Job status enumeration (`JobStatus` in job_manager.py). -/
inductive JobStatus where
  | queued
  | processing
  | completed
  | failed
deriving DecidableEq, Repr

/-- Terminal statuses: `status in (JobStatus.COMPLETED, JobStatus.FAILED)`. -/
def JobStatus.isTerminal : JobStatus → Bool
  | .completed => true
  | .failed => true
  | _ => false

/-- A transcription job (`Job` dataclass in job_manager.py).  The `result`
payload is an opaque dict, modelled as an association list so that Python
dict truthiness (`if result:`) is expressible. -/
structure Job where
  job_id : String
  filename : String
  file_path : String
  status : JobStatus
  progress : ℚ
  created_at : ℚ
  started_at : Option ℚ
  completed_at : Option ℚ
  error : Option String
  result : Option (List (String × String))
deriving DecidableEq, Repr

/-- Truthiness of an `Optional[str]` argument (`if error:`). -/
def strTruthy : Option String → Bool
  | none => false
  | some s => s ≠ ""

/-- Truthiness of an `Optional[dict]` argument (`if result:`). -/
def dictTruthy : Option (List (String × String)) → Bool
  | none => false
  | some d => d ≠ []

/-- Body of `JobManager.update_job_status` once the job has been found:
status and progress are overwritten unconditionally, `started_at` is set
only on the first PROCESSING update, `completed_at` is (re)written on every
COMPLETED/FAILED update, and `error`/`result` are written only when truthy. -/
def updateJobFields (job : Job) (status : JobStatus) (progress : ℚ)
    (error : Option String) (result : Option (List (String × String)))
    (now : ℚ) : Job :=
  { job with
    status := status
    progress := progress
    started_at :=
      if status = JobStatus.processing ∧ job.started_at = none then some now
      else job.started_at
    completed_at :=
      if status.isTerminal then some now else job.completed_at
    error := if strTruthy error then error else job.error
    result := if dictTruthy result then result else job.result }

/-- `JobManager.update_job_status`: look the job up in the registry; if
absent return `none`, otherwise apply `updateJobFields` and store the
updated job back.  The registry (`self._jobs`) is an association list keyed
by job id. -/
def JobManager.update_job_status (jobs : List (String × Job)) (job_id : String)
    (status : JobStatus) (progress : ℚ) (error : Option String)
    (result : Option (List (String × String))) (now : ℚ) :
    Option Job × List (String × Job) :=
  match jobs.lookup job_id with
  | none => (none, jobs)
  | some job =>
      let job' := updateJobFields job status progress error result now
      (some job', jobs.map (fun p => if p.1 = job_id then (p.1, job') else p))

example :
    updateJobFields
      { job_id := "j", filename := "f", file_path := "p",
        status := JobStatus.completed, progress := 1, created_at := 0,
        started_at := some 1, completed_at := some 2, error := none,
        result := none }
      JobStatus.processing (1/2) none none 3
    = { job_id := "j", filename := "f", file_path := "p",
        status := JobStatus.processing, progress := 1/2, created_at := 0,
        started_at := some 1, completed_at := some 2, error := none,
        result := none } := by
  simp [updateJobFields, JobStatus.isTerminal, strTruthy, dictTruthy]

/-- Rendering of the `Optional[str]` language into the cache-key f-string:
Python interpolates `None` as the literal text `"None"`. -/
def renderLanguage : Option String → String
  | none => "None"
  | some s => s

/-- The cache-key content string of `CacheManager.get/set_transcription_cache`:
`f"{file_path}_{file_stat.st_size}_{file_stat.st_mtime}_{model}_{language}_{settings_hash}"`.
`st_size` and `st_mtime` are the file identity read from `os.stat`; they are
passed in as naturals (their exact decimal rendering is irrelevant to the
claims, which vary only model, language and settings hash). -/
def cache_content (file_path : String) (st_size st_mtime : ℕ) (model : String)
    (language : Option String) (settings_hash : String) : String :=
  file_path ++ "_" ++ toString st_size ++ "_" ++ toString st_mtime ++ "_" ++
    model ++ "_" ++ renderLanguage language ++ "_" ++ settings_hash

/-- The transcription-result store of `CacheManager`
(performance_optimizations.py).  Entries live in
`cache_dir/transcriptions/{key}.pkl` where `key` is
`"transcription_" ++ sha256(cache_content)[:16]`; since sha256 is a fixed
deterministic function, the store is modelled as keyed directly by
`cache_content` (equal contents give equal keys; the standard
collision-freeness assumption makes distinct contents give distinct keys).
The pickled payload type is a parameter `α`.  The size-budget eviction pass
`_cleanup_cache` only fires when aggregate size exceeds `max_cache_size`
and is modelled as not triggering (cache under budget); it is not part of
the claims under study. -/
structure CacheManager (α : Type) where
  store : List (String × α)
  cache_hits : ℕ
  cache_misses : ℕ
deriving Repr

/-- A fresh cache: no entries, zero counters. -/
def CacheManager.empty (α : Type) : CacheManager α :=
  { store := [], cache_hits := 0, cache_misses := 0 }

/-- `CacheManager.get_transcription_cache`: recompute the fingerprint from
(path, size, mtime, model, language, settings hash); if the entry exists
return it and count a hit, otherwise count a miss. -/
def CacheManager.get_transcription_cache {α : Type} (c : CacheManager α)
    (file_path : String) (st_size st_mtime : ℕ) (model : String)
    (language : Option String) (settings_hash : String) :
    Option α × CacheManager α :=
  let key := cache_content file_path st_size st_mtime model language settings_hash
  match c.store.lookup key with
  | some r => (some r, { c with cache_hits := c.cache_hits + 1 })
  | none => (none, { c with cache_misses := c.cache_misses + 1 })

/-- `CacheManager.set_transcription_cache`: write the pickled result at the
fingerprint's path, replacing any previous entry for the same fingerprint. -/
def CacheManager.set_transcription_cache {α : Type} (c : CacheManager α)
    (file_path : String) (st_size st_mtime : ℕ) (model : String)
    (language : Option String) (settings_hash : String) (result : α) :
    CacheManager α :=
  let key := cache_content file_path st_size st_mtime model language settings_hash
  { c with store := (key, result) :: c.store.filter (fun p => p.1 != key) }

/-- A whisper segment as used by chunked_processor.py: only the `start` and
`end` timestamp keys are touched by the pipeline (`segment['start'] +=
chunk.start_time`, `segment['end'] += chunk.start_time`). -/
structure Segment where
  start : ℚ
  «end» : ℚ
deriving DecidableEq, Repr

/-- A per-chunk result dict as produced by
`TranscriptionEngine.transcribe_audio` (transcription_engine.py lines
131-140).  For failed chunks the engine sets `text`/`segments`/`language`
to `None`; `merge_results` never reads those fields on failed entries, so
the fields here carry the successful-shape values. -/
structure ChunkResult where
  success : Bool
  text : String
  segments : List Segment
  language : String
  confidence : ℚ
  processing_time : ℚ
  word_count : ℕ
deriving DecidableEq, Repr

/-- Python `int(x)` for non-negative `x` (truncation = floor). -/
def pyInt (q : ℚ) : ℕ := (⌊q⌋).toNat

/-- Python `round(x, n)` scaled integer rounding: round half to even
(banker's rounding), as performed by `round` on the scaled value. -/
def roundHalfEven (q : ℚ) : ℤ :=
  let f := ⌊q⌋
  let frac := q - f
  if frac < 1/2 then f
  else if 1/2 < frac then f + 1
  else if f % 2 = 0 then f else f + 1

/-- Python `round(x, 3)`. -/
def round3 (q : ℚ) : ℚ := (roundHalfEven (q * 1000) : ℚ) / 1000

/-- Python `round(x, 2)`. -/
def round2 (q : ℚ) : ℚ := (roundHalfEven (q * 100) : ℚ) / 100

/-- Python `max(iterable, key=key)` on a nonempty list: scans left to
right, replacing the current best only on a strictly larger key, so the
first element attaining the maximal key wins. -/
def pyMaxByKey (key : String → ℕ) (x : String) (xs : List String) : String :=
  xs.foldl (fun best a => if key best < key a then a else best) x

/-- Chunk metadata (`ChunkInfo` dataclass in chunked_processor.py).  The
temp-file path and its on-disk size are I/O artefacts irrelevant to the
timing claims and are not carried. -/
structure ChunkInfo where
  index : ℕ
  start_time : ℚ
  end_time : ℚ
  duration : ℚ
deriving DecidableEq, Repr

/-- `ChunkedProcessor.should_use_chunking`: probe the file's duration; use
chunking iff the probed duration exceeds 300 seconds; if the probe fails
(`except Exception`), assume a small file and return `False`.  The probe
outcome is passed in as `Option ℚ`. -/
def ChunkedProcessor.should_use_chunking (probedDuration : Option ℚ) : Bool :=
  match probedDuration with
  | some duration => duration > 300
  | none => false

/-- The chunking decision of transcribe_large_poc.py line 138 (and
transcription_service.py line 374): `use_chunking = force_chunking or
should_use_chunking(...)`. -/
def useChunking (force_chunking : Bool) (probedDuration : Option ℚ) : Bool :=
  force_chunking || ChunkedProcessor.should_use_chunking probedDuration

/-- `ChunkedProcessor.create_audio_chunks`: with probed duration
`duration` and configured `chunk_duration` (an `int`, default 30), produce
`ceil(duration / chunk_duration)` chunks; chunk `i` spans
`[i*chunk_duration, min((i+1)*chunk_duration, duration)]`.  The ffmpeg
extraction writes each chunk's audio to a temp file (I/O, not modelled in
the timing metadata). -/
def ChunkedProcessor.create_audio_chunks (chunk_duration : ℕ) (duration : ℚ) :
    List ChunkInfo :=
  let chunk_count : ℕ := ⌈duration / (chunk_duration : ℚ)⌉₊
  (List.range chunk_count).map (fun (i : ℕ) =>
    let start_time : ℚ := (i : ℚ) * (chunk_duration : ℚ)
    let end_time : ℚ := min (((i : ℚ) + 1) * (chunk_duration : ℚ)) duration
    { index := i, start_time := start_time, end_time := end_time,
      duration := end_time - start_time })

/-- Timestamp shift applied by `ChunkedProcessor.transcribe_chunks` to a
successful chunk's segments: `segment['start'] += chunk.start_time;
segment['end'] += chunk.start_time`. -/
def shiftSegments (offset : ℚ) (segs : List Segment) : List Segment :=
  segs.map (fun s => { start := s.start + offset, «end» := s.«end» + offset })

/-- `ChunkedProcessor.transcribe_chunks`, with the engine's per-chunk local
results supplied as the second components: each successful result gets its
segment timestamps shifted to global time by its chunk's `start_time`;
failed results pass through unchanged.  (The `chunk_info` bookkeeping dict
and the progress bar are not modelled.) -/
def ChunkedProcessor.transcribe_chunks (pairs : List (ChunkInfo × ChunkResult)) :
    List ChunkResult :=
  pairs.map (fun p =>
    if p.2.success then
      { p.2 with segments := shiftSegments p.1.start_time p.2.segments }
    else p.2)

/-- The merged-result dict built by `ChunkedProcessor.merge_results` on the
successful path (chunked_processor.py lines 283-295). -/
structure MergedOk where
  text : String
  segments : List Segment
  language : String
  confidence : ℚ
  processing_time : ℚ
  word_count : ℕ
  segment_count : ℕ
  chunk_count : ℕ
  successful_chunks : ℕ
  failed_chunks : ℕ
deriving DecidableEq, Repr

/-- Outcome of `ChunkedProcessor.merge_results`: either one of the two
early-return failure dicts (`{'success': False, 'error': ..., 'text': ''}`)
or the merged dict with `'success': True`. -/
inductive MergeOutput where
  | failure (error : String)
  | ok (m : MergedOk)
deriving DecidableEq, Repr

/-- `languages.count(l)` for the tie-break key of `merge_results`. -/
def langCount (languages : List String) (l : String) : ℕ :=
  languages.count l

/-- The merged dict built by the success path of
`ChunkedProcessor.merge_results` (lines 265-295), factored out so the two
early-return guards stay separate: text join over stripped non-empty texts,
segment concatenation, summed processing time and word count, averaged
confidence rounded to 3 decimals, and the most-common language scan. -/
def ChunkedProcessor.merge_success (set_order : List String)
    (chunk_results successful_results : List ChunkResult) : MergedOk :=
  let merged_text := String.intercalate " "
    (((successful_results.filter (fun r => r.text != "")).map
      (fun r => r.text.trim)))
  let all_segments := (successful_results.map (fun r => r.segments)).flatten
  let total_processing_time := (successful_results.map
    (fun r => r.processing_time)).sum
  let avg_confidence := (successful_results.map (fun r => r.confidence)).sum /
    (successful_results.length : ℚ)
  let total_words := (successful_results.map (fun r => r.word_count)).sum
  let languages := successful_results.map (fun r => r.language)
  let most_common_language :=
    match set_order with
    | [] => "unknown"
    | x :: xs => pyMaxByKey (langCount languages) x xs
  { text := merged_text
    segments := all_segments
    language := most_common_language
    confidence := round3 avg_confidence
    processing_time := round2 total_processing_time
    word_count := total_words
    segment_count := all_segments.length
    chunk_count := chunk_results.length
    successful_chunks := successful_results.length
    failed_chunks := chunk_results.length - successful_results.length }

/-- `ChunkedProcessor.merge_results`.  `set_order` is the iteration order
of the Python expression `set(languages)` — some duplicate-free enumeration
of the distinct detected languages, unspecified by the language runtime —
over which `max(set(languages), key=languages.count)` scans.  All other
steps are deterministic list operations. -/
def ChunkedProcessor.merge_results (set_order : List String)
    (chunk_results : List ChunkResult) : MergeOutput :=
  if chunk_results.isEmpty then .failure "No chunks to merge"
  else
    let successful_results := chunk_results.filter (fun r => r.success)
    if successful_results.isEmpty then .failure "No successful chunk transcriptions"
    else
      .ok (ChunkedProcessor.merge_success set_order chunk_results
        successful_results)

/-- Validity of a `set(languages)` iteration order: duplicate-free and
containing exactly the distinct elements of `languages`. -/
def IsSetOrder (set_order languages : List String) : Prop :=
  set_order.Nodup ∧ ∀ s : String, s ∈ set_order ↔ s ∈ languages

/-- The tie-break rule as worded by the spec (not by the code): the most
frequent language, ties broken by first occurrence in chunk order.
Modelled from the spec: used only to compare against the code's
`max(set(languages), key=languages.count)`. -/
def specFirstMostFrequent (languages : List String) : String :=
  match languages.find? (fun l =>
      languages.all (fun l2 => langCount languages l2 ≤ langCount languages l)) with
  | some l => l
  | none => "unknown"

/-- Python negative-index slice `data[-k:]`: the last `k` elements, except
that `k = 0` gives `data[-0:] = data[0:]`, the whole list. -/
def pySliceLast (k : ℕ) (data : List ℕ) : List ℕ :=
  if k = 0 then data else data.drop (data.length - k)

/-- The accumulating PCM buffer (`AudioBuffer` dataclass in
streaming_transcriber.py): a list of raw byte chunks. -/
structure AudioBuffer where
  sample_rate : ℕ
  channels : ℕ
  bytes_per_sample : ℕ
  chunks : List (List ℕ)
deriving DecidableEq, Repr

/-- `AudioBuffer.add_chunk`: append the chunk to the buffer. -/
def AudioBuffer.add_chunk (b : AudioBuffer) (data : List ℕ) : AudioBuffer :=
  { b with chunks := b.chunks ++ [data] }

/-- `sum(len(chunk) for chunk in self.chunks)`. -/
def AudioBuffer.totalBytes (b : AudioBuffer) : ℕ :=
  (b.chunks.map List.length).sum

/-- `AudioBuffer.get_duration`: `total_bytes / bytes_per_sample / channels
/ sample_rate`. -/
def AudioBuffer.get_duration (b : AudioBuffer) : ℚ :=
  (b.totalBytes : ℚ) / (b.bytes_per_sample : ℚ) / (b.channels : ℚ) /
    (b.sample_rate : ℚ)

/-- `AudioBuffer.get_audio_data`: concatenation of all chunks. -/
def AudioBuffer.get_audio_data (b : AudioBuffer) : List ℕ :=
  b.chunks.flatten

/-- `AudioBuffer.shift(keep_duration)`: keep only the trailing
`keep_duration` seconds.  A no-op when the buffer already holds at most
`keep_duration` seconds; otherwise the buffer collapses to the single chunk
`all_data[-bytes_to_keep:]` (or all of `all_data` when it is not longer
than `bytes_to_keep`). -/
def AudioBuffer.shift (b : AudioBuffer) (keep_duration : ℚ) : AudioBuffer :=
  if b.get_duration ≤ keep_duration then b
  else
    let bytes_to_keep : ℕ := pyInt (keep_duration * (b.sample_rate : ℚ) *
      (b.channels : ℚ) * (b.bytes_per_sample : ℚ))
    let all_data := b.get_audio_data
    if bytes_to_keep < all_data.length then
      { b with chunks := [pySliceLast bytes_to_keep all_data] }
    else
      { b with chunks := [all_data] }

/-- The buffering state of `StreamingTranscriber`: the trigger threshold
`chunk_duration` (constructor default 5.0s), the fixed
`overlap_duration = 1.0`, and the buffer.  The engine call performed on a
flush is external (out of scope per the spec) — the model records that a
transcription fired, not its text. -/
structure StreamingTranscriber where
  chunk_duration : ℚ
  overlap_duration : ℚ
  buffer : AudioBuffer
deriving DecidableEq, Repr

/-- `StreamingTranscriber.__init__(sample_rate=..., chunk_duration=...)`:
`overlap_duration = 1.0`, fresh mono 16-bit buffer at the given rate. -/
def StreamingTranscriber.init (sample_rate : ℕ) (chunk_duration : ℚ) :
    StreamingTranscriber :=
  { chunk_duration := chunk_duration
    overlap_duration := 1
    buffer := { sample_rate := sample_rate, channels := 1,
                bytes_per_sample := 2, chunks := [] } }

/-- `StreamingTranscriber.process_audio_chunk`: buffer the data; if the
accumulated duration is below `chunk_duration` return `None` (no
transcription); otherwise transcribe the whole buffer (one engine call,
recorded as `true`) and then `shift(keep_duration=overlap_duration)`. -/
def StreamingTranscriber.process_audio_chunk (st : StreamingTranscriber)
    (audio_data : List ℕ) : Bool × StreamingTranscriber :=
  let b := st.buffer.add_chunk audio_data
  if b.get_duration < st.chunk_duration then
    (false, { st with buffer := b })
  else
    (true, { st with buffer := b.shift st.overlap_duration })

/-- Feed a sequence of pushes through `process_audio_chunk`, counting how
many transcriptions fired. -/
def StreamingTranscriber.processAll (st : StreamingTranscriber)
    (pushes : List (List ℕ)) : ℕ × StreamingTranscriber :=
  pushes.foldl
    (fun acc data =>
      let r := acc.2.process_audio_chunk data
      (acc.1 + (if r.1 then 1 else 0), r.2))
    (0, st)

/-- Chunk metadata persisted by a recording session (`SessionChunk`
dataclass in recording_session.py). -/
structure SessionChunk where
  path : String
  start_time : ℚ
  duration : ℚ
  size_bytes : ℕ
deriving DecidableEq, Repr

/-- A recording session (`RecordingSession` dataclass) together with the
observable state of its private temp directory: `files` is the list of
file paths currently existing in `_temp_dir` (only `add_chunk` ever writes
there) and `temp_dir_exists` tracks the directory itself. -/
structure RecordingSession where
  session_id : String
  sample_rate : ℕ
  channels : ℕ
  bytes_per_sample : ℕ
  created_at : ℚ
  chunks : List SessionChunk
  total_duration : ℚ
  temp_dir : String
  temp_dir_exists : Bool
  files : List String
  is_paused : Bool
  paused_at : Option ℚ
  transcript_text : String
  chapters : List String
deriving DecidableEq, Repr

/-- A fresh session as built by `SessionManager.create_session` and
`__post_init__`: dataclass defaults (mono, 16-bit), an empty chunk list,
and a freshly created empty temp directory. -/
def RecordingSession.create (session_id : String) (sample_rate : ℕ)
    (temp_dir : String) (now : ℚ) : RecordingSession :=
  { session_id := session_id
    sample_rate := sample_rate
    channels := 1
    bytes_per_sample := 2
    created_at := now
    chunks := []
    total_duration := 0
    temp_dir := temp_dir
    temp_dir_exists := true
    files := []
    is_paused := false
    paused_at := none
    transcript_text := ""
    chapters := [] }

/-- Python `f"chunk_{n:04d}"` zero-padding. -/
def pad4 (n : ℕ) : String :=
  let s := toString n
  if 4 ≤ s.length then s
  else String.mk (List.replicate (4 - s.length) '0') ++ s

/-- `RecordingSession.add_chunk`: duration is
`len(audio_data) / bytes_per_sample / channels / sample_rate`; the raw
bytes are written to `chunk_{len(chunks):04d}.raw` in the session temp
directory; the chunk starts at the current `total_duration`, is appended,
and `total_duration` is advanced by the chunk's duration. -/
def RecordingSession.add_chunk (s : RecordingSession) (audio_data : List ℕ) :
    SessionChunk × RecordingSession :=
  let samples : ℚ := (audio_data.length : ℚ) / (s.bytes_per_sample : ℚ) /
    (s.channels : ℚ)
  let duration : ℚ := samples / (s.sample_rate : ℚ)
  let chunk_path := s.temp_dir ++ "/chunk_" ++ pad4 s.chunks.length ++ ".raw"
  let chunk : SessionChunk :=
    { path := chunk_path, start_time := s.total_duration,
      duration := duration, size_bytes := audio_data.length }
  (chunk,
    { s with
      files := if s.files.contains chunk_path then s.files
               else s.files ++ [chunk_path]
      chunks := s.chunks ++ [chunk]
      total_duration := s.total_duration + duration })

/-- `RecordingSession.cleanup`: unlink every chunk file that still exists,
attempt `os.rmdir` on the temp directory (silently failing when it is not
empty — stray files keep it alive), and clear the chunk list.
`total_duration` is left as it is. -/
def RecordingSession.cleanup (s : RecordingSession) : RecordingSession :=
  let files' := s.files.filter (fun f => !(s.chunks.any (fun c => c.path == f)))
  { s with
    chunks := []
    files := files'
    temp_dir_exists := s.temp_dir_exists && !files'.isEmpty }

/-- `RecordingSession.pause_session(transcript)`: mark paused, stamp
`paused_at`, and overwrite `transcript_text` only when the argument is a
truthy (non-empty) string. -/
def RecordingSession.pause_session (s : RecordingSession) (transcript : String)
    (now : ℚ) : RecordingSession :=
  { s with
    is_paused := true
    paused_at := some now
    transcript_text := if transcript ≠ "" then transcript else s.transcript_text }

/-- `RecordingSession.resume_session`: un-pause and return the frozen
continuation state `(prior_duration, prior_transcript)` (the formatted
duration string and chapters are also returned by the code; the two fields
the claim is about are modelled). -/
def RecordingSession.resume_session (s : RecordingSession) :
    RecordingSession × ℚ × String :=
  ({ s with is_paused := false, paused_at := none },
    s.total_duration, s.transcript_text)

/-- `SessionManager.remove_session`: `self._sessions.pop(session_id, None)`;
when present the popped session is cleaned up, when absent nothing
happens.  The function returns the registry afterwards. -/
def SessionManager.remove_session
    (sessions : List (String × RecordingSession)) (session_id : String) :
    List (String × RecordingSession) :=
  match sessions.lookup session_id with
  | none => sessions
  | some _ => sessions.filter (fun p => p.1 != session_id)

/-- One driver-visible operation on a recording session. -/
inductive SessionOp where
  | add (audio_data : List ℕ)
  | pause (transcript : String) (now : ℚ)
  | resume
  | cleanup
deriving DecidableEq, Repr

/-- Apply one operation (the values returned by `add_chunk` and
`resume_session` are dropped; only the session state evolves). -/
def RecordingSession.applyOp (s : RecordingSession) : SessionOp → RecordingSession
  | .add audio_data => (s.add_chunk audio_data).2
  | .pause t now => s.pause_session t now
  | .resume => (s.resume_session).1
  | .cleanup => s.cleanup

/-- Apply a sequence of operations left to right. -/
def RecordingSession.applyOps (s : RecordingSession) (ops : List SessionOp) :
    RecordingSession :=
  ops.foldl RecordingSession.applyOp s

/-- The duration invariant of the spec: `total_duration` equals the sum of
the durations of the chunks currently held in the chunk list. -/
def durationInvariant (s : RecordingSession) : Prop :=
  s.total_duration = (s.chunks.map (fun c => c.duration)).sum

/-- Looking up a key after rewriting exactly the entries carrying that key
returns the new value, provided the key was present. -/
theorem lookup_map_overwrite {β : Type} (jobs : List (String × β)) (job_id : String)
    (job' : β) (h : jobs.lookup job_id ≠ none) :
    (jobs.map (fun p => if p.1 = job_id then (p.1, job') else p)).lookup job_id
      = some job' := by
  induction jobs with
  | nil => simp [List.lookup] at h
  | cons hd tl ih =>
      rcases hd with ⟨k, v⟩
      by_cases hk : k = job_id
      · subst hk
        have hif : (if (k, v).1 = k then ((k, v).1, job') else (k, v)) = (k, job') := by
          simp
        simp only [List.map_cons, hif]
        simp only [List.lookup]
        rw [beq_self_eq_true]
      · have hne : (job_id == k) = false := beq_eq_false_iff_ne.mpr fun hh => hk hh.symm
        have hif : (if (k, v).1 = job_id then ((k, v).1, job') else (k, v)) = (k, v) := by
          simp [hk]
        simp only [List.map_cons, hif]
        simp only [List.lookup, hne] at h ⊢
        exact ih h

/-- A concrete COMPLETED job used to exercise `update_job_status`. -/
def c1Job : Job :=
  { job_id := "j1", filename := "a.wav", file_path := "/u/a.wav",
    status := JobStatus.completed, progress := 1, created_at := 0,
    started_at := some 1, completed_at := some 2, error := none,
    result := none }

/-- C1 counterexample: `update_job_status` on a COMPLETED job is not a
no-op — updating the completed job `c1Job` to PROCESSING stores a job whose
status is PROCESSING, so the job transitions out of a terminal state. -/
theorem C1_counterexample :
    c1Job.status.isTerminal = true ∧
    ((JobManager.update_job_status [("j1", c1Job)] "j1" JobStatus.processing
        0 none none 9).2.lookup "j1").map Job.status
      = some JobStatus.processing ∧
    (JobManager.update_job_status [("j1", c1Job)] "j1" JobStatus.processing
        0 none none 9).2.lookup "j1" ≠ some c1Job := by
  refine ⟨rfl, ?_, ?_⟩ <;>
    simp [JobManager.update_job_status, updateJobFields, c1Job, List.lookup,
      JobStatus.isTerminal, strTruthy, dictTruthy]

/-- C1 (amended): `update_job_status` applies every update regardless of
terminal state: for a job found in the registry with COMPLETED or FAILED
status, the update is stored back — the new status and progress overwrite
the old ones (so a terminal job can transition to any status),
`completed_at` is rewritten to the current time on every COMPLETED/FAILED
update (so it is not set exactly once), `error` and `result` change exactly
when the corresponding argument is truthy, and `started_at` of a job that
has already started is preserved. -/
theorem C1_terminal_update_applied
    (jobs : List (String × Job)) (job_id : String) (job : Job)
    (status : JobStatus) (progress : ℚ) (error : Option String)
    (result : Option (List (String × String))) (now : ℚ)
    (hfound : jobs.lookup job_id = some job)
    (_hterm : job.status.isTerminal = true) :
    ∃ job',
      JobManager.update_job_status jobs job_id status progress error result now
        = (some job',
            jobs.map (fun p => if p.1 = job_id then (p.1, job') else p)) ∧
      (JobManager.update_job_status jobs job_id status progress error result
          now).2.lookup job_id = some job' ∧
      job'.status = status ∧
      job'.progress = progress ∧
      (status.isTerminal = true → job'.completed_at = some now) ∧
      (status.isTerminal = false → job'.completed_at = job.completed_at) ∧
      (strTruthy error = false → job'.error = job.error) ∧
      (dictTruthy result = false → job'.result = job.result) ∧
      (job.started_at ≠ none → job'.started_at = job.started_at) := by
  refine ⟨updateJobFields job status progress error result now, ?_, ?_, ?_, ?_, ?_, ?_, ?_, ?_, ?_⟩
  · simp only [JobManager.update_job_status, hfound]
  · simp only [JobManager.update_job_status, hfound]
    exact lookup_map_overwrite jobs job_id _ (by simp [hfound])
  · rfl
  · rfl
  · intro hs; simp [updateJobFields, hs]
  · intro hs; simp [updateJobFields, hs]
  · intro he; simp [updateJobFields, he]
  · intro hr; simp [updateJobFields, hr]
  · intro hs
    simp only [updateJobFields]
    have : ¬ (status = JobStatus.processing ∧ job.started_at = none) := by
      rintro ⟨_, h2⟩; exact hs h2
    simp [this]

/-- C1 witness: the amended theorem applied to the concrete completed job
`c1Job` being updated to FAILED at time 9. -/
theorem C1_terminal_update_applied_witness :
    [("j1", c1Job)].lookup "j1" = some c1Job ∧
    c1Job.status.isTerminal = true ∧
    (∃ job',
      JobManager.update_job_status [("j1", c1Job)] "j1" JobStatus.failed 0
          none none 9
        = (some job',
            [("j1", c1Job)].map (fun p => if p.1 = "j1" then (p.1, job') else p)) ∧
      (JobManager.update_job_status [("j1", c1Job)] "j1" JobStatus.failed 0
          none none 9).2.lookup "j1" = some job' ∧
      job'.status = JobStatus.failed ∧
      job'.progress = 0 ∧
      (JobStatus.failed.isTerminal = true → job'.completed_at = some 9) ∧
      (JobStatus.failed.isTerminal = false → job'.completed_at = c1Job.completed_at) ∧
      (strTruthy none = false → job'.error = c1Job.error) ∧
      (dictTruthy none = false → job'.result = c1Job.result) ∧
      (c1Job.started_at ≠ none → job'.started_at = c1Job.started_at)) :=
  ⟨by simp [List.lookup, c1Job], rfl,
    C1_terminal_update_applied [("j1", c1Job)] "j1" c1Job JobStatus.failed 0
      none none 9 (by simp [List.lookup, c1Job]) rfl⟩

/-- C2 counterexample: the fingerprint input string joins its fields with
`_` without escaping, so two requests that differ in both model and
language — model `m` with language `x_y` versus model `m_x` with language
`y` — produce the identical content string and hence the identical
fingerprint, and the second request returns the first request's cached
result instead of missing. -/
theorem C2_counterexample :
    cache_content "a.wav" 10 5 "m" (some "x_y") "s"
      = cache_content "a.wav" 10 5 "m_x" (some "y") "s" ∧
    ("m" ≠ "m_x" ∧ some "x_y" ≠ some "y") ∧
    (CacheManager.get_transcription_cache
        (CacheManager.set_transcription_cache (CacheManager.empty ℕ)
          "a.wav" 10 5 "m" (some "x_y") "s" 42)
        "a.wav" 10 5 "m_x" (some "y") "s").1 = some 42 := by
  refine ⟨rfl, ⟨by decide, by decide⟩, by decide⟩

/-- C2 (amended): the cache round-trip holds — after
`set_transcription_cache` stores `r` under the fingerprint of (path, size,
mtime, model, language, settings hash), `get_transcription_cache` with the
same inputs returns `r` — and a request misses a freshly-filled cache
whenever its underscore-joined content string differs from the stored one.
Differing model, language or settings hash however only changes the
fingerprint when the joined content strings differ: the fields are joined
with `_` unescaped (see the counterexample), so distinct requests can
collide and falsely hit. -/
theorem C2_cache_roundtrip
    {α : Type} (c : CacheManager α) (file_path : String) (st_size st_mtime : ℕ)
    (model : String) (language : Option String) (settings_hash : String) (r : α)
    (file_path' : String) (st_size' st_mtime' : ℕ) (model' : String)
    (language' : Option String) (settings_hash' : String) :
    (CacheManager.get_transcription_cache
        (c.set_transcription_cache file_path st_size st_mtime model language
          settings_hash r)
        file_path st_size st_mtime model language settings_hash).1 = some r ∧
    (cache_content file_path' st_size' st_mtime' model' language' settings_hash'
        ≠ cache_content file_path st_size st_mtime model language settings_hash →
      (CacheManager.get_transcription_cache
          (CacheManager.set_transcription_cache (CacheManager.empty α)
            file_path st_size st_mtime model language settings_hash r)
          file_path' st_size' st_mtime' model' language' settings_hash').1
        = none) := by
  constructor
  · simp [CacheManager.get_transcription_cache,
      CacheManager.set_transcription_cache, List.lookup]
  · intro hne
    have hbeq : (cache_content file_path' st_size' st_mtime' model' language'
        settings_hash' ==
        cache_content file_path st_size st_mtime model language settings_hash)
        = false := beq_eq_false_iff_ne.mpr hne
    simp [CacheManager.get_transcription_cache,
      CacheManager.set_transcription_cache, CacheManager.empty, List.lookup, hbeq]

/-- C2 witness: round-trip and miss at concrete inputs — store result `7`
for (a.wav, size 10, mtime 5, model `m`, language `en`, settings `s`); the
identical request hits and returns `7`, while changing the model to `tiny`
changes the content string and misses. -/
theorem C2_cache_roundtrip_witness :
    (CacheManager.get_transcription_cache
        (CacheManager.set_transcription_cache (CacheManager.empty ℕ)
          "a.wav" 10 5 "m" (some "en") "s" 7)
        "a.wav" 10 5 "m" (some "en") "s").1 = some 7 ∧
    (CacheManager.get_transcription_cache
        (CacheManager.set_transcription_cache (CacheManager.empty ℕ)
          "a.wav" 10 5 "m" (some "en") "s" 7)
        "a.wav" 10 5 "tiny" (some "en") "s").1 = none := by
  have h := C2_cache_roundtrip (CacheManager.empty ℕ) "a.wav" 10 5 "m"
    (some "en") "s" 7 "a.wav" 10 5 "tiny" (some "en") "s"
  exact ⟨h.1, h.2 (by decide)⟩

/-- Splitting a list by a Boolean predicate: the lengths of the two filters
add up to the length of the list. -/
theorem filter_length_partition (l : List ChunkResult) :
    (l.filter (fun r => r.success)).length
      + (l.filter (fun r => !r.success)).length = l.length := by
  induction l with
  | nil => rfl
  | cons a t ih =>
      cases ha : a.success <;> simp [List.filter, ha] <;> omega

/-- C3: `merge_results` merges only the successful chunks — whenever at
least one chunk succeeded it returns a success dict whose text, segments
and word count are computed from the successful sublist alone, whose
`successful_chunks` is the number of succeeded entries, whose
`failed_chunks` is the number of failed entries and whose `chunk_count`
is the total — and it returns a failure dict when zero chunks succeed. -/
theorem C3_merge_failure_policy (set_order : List String)
    (chunk_results : List ChunkResult) :
    ((chunk_results.filter (fun r => r.success)).isEmpty = false →
      ∃ m, ChunkedProcessor.merge_results set_order chunk_results
          = MergeOutput.ok m ∧
        m.successful_chunks = (chunk_results.filter (fun r => r.success)).length ∧
        m.failed_chunks = (chunk_results.filter (fun r => !r.success)).length ∧
        m.chunk_count = chunk_results.length ∧
        m.text = String.intercalate " "
          (((chunk_results.filter (fun r => r.success)).filter
              (fun r => r.text != "")).map (fun r => r.text.trim)) ∧
        m.segments = ((chunk_results.filter (fun r => r.success)).map
          (fun r => r.segments)).flatten ∧
        m.word_count = ((chunk_results.filter (fun r => r.success)).map
          (fun r => r.word_count)).sum) ∧
    ((chunk_results.filter (fun r => r.success)).isEmpty = true →
      ∃ e, ChunkedProcessor.merge_results set_order chunk_results
          = MergeOutput.failure e) := by
  constructor
  · intro hne
    have hcr : chunk_results.isEmpty = false := by
      cases hc : chunk_results with
      | nil => subst hc; simp at hne
      | cons a t => rfl
    refine ⟨ChunkedProcessor.merge_success set_order chunk_results
        (chunk_results.filter (fun r => r.success)),
      ?_, rfl, ?_, rfl, rfl, rfl, rfl⟩
    · simp [ChunkedProcessor.merge_results, hcr, hne]
    · have hp := filter_length_partition chunk_results
      show chunk_results.length
        - (chunk_results.filter (fun r => r.success)).length = _
      omega
  · intro hemp
    cases hcr : chunk_results.isEmpty with
    | true =>
        exact ⟨"No chunks to merge", by
          simp [ChunkedProcessor.merge_results, hcr]⟩
    | false =>
        exact ⟨"No successful chunk transcriptions", by
          simp [ChunkedProcessor.merge_results, hcr, hemp]⟩

/-- A successful chunk result used in concrete merge scenarios. -/
def c3Success : ChunkResult :=
  { success := true, text := "hello there", segments := [],
    language := "en", confidence := 1, processing_time := 0, word_count := 2 }

/-- A failed chunk result used in concrete merge scenarios. -/
def c3Failed : ChunkResult :=
  { success := false, text := "", segments := [], language := "en",
    confidence := 0, processing_time := 0, word_count := 0 }

/-- C3 witness: the spec scenario — 24 chunks where chunk #10 fails and the
other 23 succeed merges to a success dict with `successful_chunks = 23`,
`failed_chunks = 1`. -/
theorem C3_merge_failure_policy_witness :
    ∃ m, ChunkedProcessor.merge_results ["en"]
        (List.replicate 9 c3Success ++ [c3Failed] ++ List.replicate 14 c3Success)
        = MergeOutput.ok m ∧
      m.successful_chunks = 23 ∧ m.failed_chunks = 1 ∧ m.chunk_count = 24 := by
  obtain ⟨m, hm, hs, hf, hc, -⟩ :=
    (C3_merge_failure_policy ["en"]
      (List.replicate 9 c3Success ++ [c3Failed] ++ List.replicate 14 c3Success)).1
      (by decide)
  refine ⟨m, hm, ?_, ?_, ?_⟩
  · rw [hs]; decide
  · rw [hf]; decide
  · rw [hc]; decide

/-- The geometry `create_audio_chunks` gives chunk `c`: it spans
`[index*d, min((index+1)*d, duration)]`, its `duration` field is the span
width, and the span is non-degenerate. -/
def ChunkSpec (chunk_duration : ℕ) (duration : ℚ) (c : ChunkInfo) : Prop :=
  c.start_time = (c.index : ℚ) * (chunk_duration : ℚ) ∧
  c.end_time = min (((c.index : ℚ) + 1) * (chunk_duration : ℚ)) duration ∧
  c.duration = c.end_time - c.start_time ∧
  c.start_time < c.end_time

/-- Closed form of the chunk list entries. -/
theorem create_audio_chunks_get (chunk_duration : ℕ) (duration : ℚ)
    (i : ℕ) (hi : i < (ChunkedProcessor.create_audio_chunks chunk_duration
      duration).length) :
    (ChunkedProcessor.create_audio_chunks chunk_duration duration)[i]
      = { index := i
          start_time := (i : ℚ) * (chunk_duration : ℚ)
          end_time := min (((i : ℚ) + 1) * (chunk_duration : ℚ)) duration
          duration := min (((i : ℚ) + 1) * (chunk_duration : ℚ)) duration
            - (i : ℚ) * (chunk_duration : ℚ) } := by
  simp [ChunkedProcessor.create_audio_chunks]

/-- C4: for a finite source of known positive duration and a positive chunk
duration `d`, chunking is used iff the probed duration exceeds 300 seconds
or chunking is forced; when chunks are created there are exactly
`ceil(duration / d)` of them, chunk `i` spans
`[i*d, min((i+1)*d, duration)]` with `end_time > start_time`, consecutive
chunks are contiguous (non-overlapping, touching), the first chunk starts
at 0 and the last ends at `duration` (full coverage).  In particular a
720-second source with `d = 30` yields exactly 24 chunks (see the
witness). -/
theorem C4_chunk_geometry (force_chunking : Bool) (chunk_duration : ℕ)
    (duration : ℚ) (hd : 0 < chunk_duration) (hdur : 0 < duration) :
    (useChunking force_chunking (some duration) = true ↔
      force_chunking = true ∨ duration > 300) ∧
    (ChunkedProcessor.create_audio_chunks chunk_duration duration).length
      = ⌈duration / (chunk_duration : ℚ)⌉₊ ∧
    (∀ i : ℕ, ∀ hi : i < (ChunkedProcessor.create_audio_chunks chunk_duration
        duration).length,
      (ChunkedProcessor.create_audio_chunks chunk_duration duration)[i].index
          = i ∧
      ChunkSpec chunk_duration duration
        (ChunkedProcessor.create_audio_chunks chunk_duration duration)[i]) ∧
    (∀ i : ℕ, ∀ hi1 : i + 1 < (ChunkedProcessor.create_audio_chunks
        chunk_duration duration).length,
      ∀ hi : i < (ChunkedProcessor.create_audio_chunks chunk_duration
        duration).length,
      (ChunkedProcessor.create_audio_chunks chunk_duration duration)[i].end_time
        = (ChunkedProcessor.create_audio_chunks chunk_duration
            duration)[i + 1].start_time) ∧
    (∃ hpos : 0 < (ChunkedProcessor.create_audio_chunks chunk_duration
        duration).length,
      (ChunkedProcessor.create_audio_chunks chunk_duration
        duration)[0].start_time = 0 ∧
      (ChunkedProcessor.create_audio_chunks chunk_duration duration).length - 1
        < (ChunkedProcessor.create_audio_chunks chunk_duration duration).length ∧
      ∀ hl : (ChunkedProcessor.create_audio_chunks chunk_duration
          duration).length - 1 < (ChunkedProcessor.create_audio_chunks
          chunk_duration duration).length,
        (ChunkedProcessor.create_audio_chunks chunk_duration duration)[
          (ChunkedProcessor.create_audio_chunks chunk_duration
            duration).length - 1].end_time = duration) := by
  have hdq : (0 : ℚ) < (chunk_duration : ℚ) := by exact_mod_cast hd
  have hlen : (ChunkedProcessor.create_audio_chunks chunk_duration
      duration).length = ⌈duration / (chunk_duration : ℚ)⌉₊ := by
    simp [ChunkedProcessor.create_audio_chunks]
  refine ⟨?_, hlen, ?_, ?_, ?_⟩
  · simp [useChunking, ChunkedProcessor.should_use_chunking]
  · intro i hi
    have hiq : (i : ℚ) * (chunk_duration : ℚ) < duration := by
      have h1 : (i : ℚ) < duration / (chunk_duration : ℚ) := by
        have := Nat.lt_ceil.mp (hlen ▸ hi)
        exact this
      exact (lt_div_iff₀ hdq).mp h1
    rw [create_audio_chunks_get chunk_duration duration i hi]
    refine ⟨rfl, rfl, rfl, rfl, ?_⟩
    refine lt_min ?_ hiq
    have : (i : ℚ) < (i : ℚ) + 1 := lt_add_one _
    exact mul_lt_mul_of_pos_right this hdq
  · intro i hi1 hi
    have hiq : ((i : ℚ) + 1) * (chunk_duration : ℚ) < duration := by
      have h1 : ((i + 1 : ℕ) : ℚ) < duration / (chunk_duration : ℚ) :=
        Nat.lt_ceil.mp (hlen ▸ hi1)
      have h2 : ((i : ℚ) + 1) < duration / (chunk_duration : ℚ) := by
        push_cast at h1
        exact h1
      exact (lt_div_iff₀ hdq).mp h2
    rw [create_audio_chunks_get chunk_duration duration i hi,
      create_audio_chunks_get chunk_duration duration (i + 1) hi1]
    show min (((i : ℚ) + 1) * (chunk_duration : ℚ)) duration
      = ((i + 1 : ℕ) : ℚ) * (chunk_duration : ℚ)
    rw [min_eq_left (le_of_lt hiq)]
    push_cast
    ring
  · have hpos : 0 < (ChunkedProcessor.create_audio_chunks chunk_duration
        duration).length := by
      rw [hlen]
      exact Nat.ceil_pos.mpr (div_pos hdur hdq)
    have hlast : (ChunkedProcessor.create_audio_chunks chunk_duration
        duration).length - 1 < (ChunkedProcessor.create_audio_chunks
        chunk_duration duration).length := Nat.sub_lt hpos Nat.one_pos
    refine ⟨hpos, ?_, hlast, ?_⟩
    · rw [create_audio_chunks_get chunk_duration duration 0 hpos]
      show ((0 : ℕ) : ℚ) * (chunk_duration : ℚ) = 0
      simp
    · intro hl
      rw [create_audio_chunks_get chunk_duration duration _ hl]
      have hcast : ((((ChunkedProcessor.create_audio_chunks chunk_duration
          duration).length - 1 : ℕ) : ℚ) + 1)
          = ((⌈duration / (chunk_duration : ℚ)⌉₊ : ℕ) : ℚ) := by
        rw [← hlen]
        exact_mod_cast Nat.succ_pred_eq_of_pos hpos
      have hle : duration ≤ ((((ChunkedProcessor.create_audio_chunks
          chunk_duration duration).length - 1 : ℕ) : ℚ) + 1)
          * (chunk_duration : ℚ) := by
        rw [hcast]
        exact (div_le_iff₀ hdq).mp (Nat.le_ceil _)
      exact min_eq_right hle

/-- C4 witness: a 720-second source with 30-second chunks — chunking is
used (720 > 300) and exactly 24 chunks are produced. -/
theorem C4_chunk_geometry_witness :
    (0 : ℚ) < 720 ∧ 0 < 30 ∧
    useChunking false (some 720) = true ∧
    (ChunkedProcessor.create_audio_chunks 30 720).length = 24 := by
  have h := C4_chunk_geometry false 30 720 (by norm_num) (by norm_num)
  refine ⟨by norm_num, by norm_num, h.1.mpr (Or.inr (by norm_num)), ?_⟩
  rw [h.2.1]
  rw [show (720 : ℚ) / ((30 : ℕ) : ℚ) = ((24 : ℕ) : ℚ) by norm_num]
  exact Nat.ceil_natCast 24

/-- `pyMaxByKey` on a cons recurses with the better of the first two
elements as seed. -/
theorem pyMaxByKey_cons (key : String → ℕ) (x a : String) (t : List String) :
    pyMaxByKey key x (a :: t)
      = pyMaxByKey key (if key x < key a then a else x) t := rfl

/-- The scan result is one of the scanned elements. -/
theorem pyMaxByKey_mem (key : String → ℕ) (x : String) (xs : List String) :
    pyMaxByKey key x xs ∈ x :: xs := by
  induction xs generalizing x with
  | nil => simp [pyMaxByKey]
  | cons a t ih =>
      rw [pyMaxByKey_cons]
      by_cases h : key x < key a
      · rw [if_pos h]
        rcases List.mem_cons.mp (ih a) with h1 | h1
        · simp [h1]
        · simp [h1]
      · rw [if_neg h]
        rcases List.mem_cons.mp (ih x) with h1 | h1
        · simp [h1]
        · simp [h1]

/-- The scan result has a maximal key among the scanned elements. -/
theorem pyMaxByKey_le (key : String → ℕ) (x : String) (xs : List String) :
    ∀ y ∈ x :: xs, key y ≤ key (pyMaxByKey key x xs) := by
  induction xs generalizing x with
  | nil =>
      intro y hy
      rcases List.mem_cons.mp hy with rfl | hy1
      · simp [pyMaxByKey]
      · simp at hy1
  | cons a t ih =>
      intro y hy
      rw [pyMaxByKey_cons]
      by_cases h : key x < key a
      · rw [if_pos h]
        rcases List.mem_cons.mp hy with h1 | hy1
        · rw [h1]
          exact le_trans (le_of_lt h) (ih a a (by simp))
        · exact ih a y hy1
      · rw [if_neg h]
        rcases List.mem_cons.mp hy with h1 | hy1
        · rw [h1]
          exact ih x x (by simp)
        · rcases List.mem_cons.mp hy1 with h2 | hy2
          · rw [h2]
            exact le_trans (not_lt.mp h) (ih x x (by simp))
          · exact ih x y (by simp [hy2])

/-- A successful chunk whose detected language is English. -/
def c6En : ChunkResult :=
  { success := true, text := "one", segments := [], language := "en",
    confidence := 1, processing_time := 0, word_count := 1 }

/-- A successful chunk whose detected language is French. -/
def c6Fr : ChunkResult :=
  { success := true, text := "two", segments := [], language := "fr",
    confidence := 1, processing_time := 0, word_count := 1 }

/-- C6 counterexample: on two successful chunks detecting `en` then `fr`
(a tie), the enumeration `["fr", "en"]` is a perfectly valid iteration
order for `set(languages)`, and under it
`max(set(languages), key=languages.count)` returns `fr` — not `en`, the
first-occurring most frequent language in chunk order.  The tie is thus
broken by the unspecified set order, not by first occurrence. -/
theorem C6_counterexample :
    IsSetOrder ["fr", "en"]
      (([c6En, c6Fr].filter (fun r => r.success)).map (fun r => r.language)) ∧
    (match ChunkedProcessor.merge_results ["fr", "en"] [c6En, c6Fr] with
     | MergeOutput.ok m => m.language
     | MergeOutput.failure e => e) = "fr" ∧
    specFirstMostFrequent
      (([c6En, c6Fr].filter (fun r => r.success)).map (fun r => r.language))
      = "en" ∧
    ("fr" : String) ≠ "en" := by
  refine ⟨⟨by decide, ?_⟩, by decide, by decide, by decide⟩
  intro s
  simp [c6En, c6Fr]
  tauto

/-- C6 (amended): on the successful chunks, the merged language always
attains the maximal occurrence count among the detected languages (it is a
mode), for every admissible iteration order of `set(languages)`; when
several languages tie for most frequent, which one wins depends on that
unspecified set order, not necessarily on first occurrence in chunk
order. -/
theorem C6_language_mode (set_order : List String)
    (chunk_results : List ChunkResult)
    (hord : IsSetOrder set_order
      ((chunk_results.filter (fun r => r.success)).map (fun r => r.language)))
    (hne : (chunk_results.filter (fun r => r.success)).isEmpty = false) :
    ∃ m, ChunkedProcessor.merge_results set_order chunk_results
        = MergeOutput.ok m ∧
      m.language ∈ (chunk_results.filter (fun r => r.success)).map
        (fun r => r.language) ∧
      ∀ l ∈ (chunk_results.filter (fun r => r.success)).map
          (fun r => r.language),
        langCount ((chunk_results.filter (fun r => r.success)).map
            (fun r => r.language)) l
          ≤ langCount ((chunk_results.filter (fun r => r.success)).map
            (fun r => r.language)) m.language := by
  have hcr : chunk_results.isEmpty = false := by
    cases hc : chunk_results with
    | nil => subst hc; simp at hne
    | cons a t => rfl
  cases hso : set_order with
  | nil =>
      exfalso
      have hfne : chunk_results.filter (fun r => r.success) ≠ [] := by
        intro h0
        rw [h0] at hne
        simp at hne
      obtain ⟨r, hr⟩ := List.exists_mem_of_ne_nil _ hfne
      have : r.language ∈ (chunk_results.filter (fun r => r.success)).map
          (fun r => r.language) := List.mem_map.mpr ⟨r, hr, rfl⟩
      have h0 := (hord.2 r.language).mpr this
      rw [hso] at h0
      simp at h0
  | cons x xs =>
      refine ⟨ChunkedProcessor.merge_success (x :: xs) chunk_results
        (chunk_results.filter (fun r => r.success)), ?_, ?_, ?_⟩
      · simp [ChunkedProcessor.merge_results, hcr, hne]
      · have hmem := pyMaxByKey_mem
          (langCount ((chunk_results.filter (fun r => r.success)).map
            (fun r => r.language))) x xs
        have := (hord.2 _).mp (by rw [hso]; exact hmem)
        exact this
      · intro l hl
        have hlo : l ∈ x :: xs := by
          rw [← hso]
          exact (hord.2 l).mpr hl
        exact pyMaxByKey_le
          (langCount ((chunk_results.filter (fun r => r.success)).map
            (fun r => r.language))) x xs l hlo

/-- C6 witness: the amended theorem at the concrete two-chunk tie with set
order `["en", "fr"]` — the returned language is one of the detected
languages and attains the maximal count. -/
theorem C6_language_mode_witness :
    ∃ m, ChunkedProcessor.merge_results ["en", "fr"] [c6En, c6Fr]
        = MergeOutput.ok m ∧
      m.language ∈ ([c6En, c6Fr].filter (fun r => r.success)).map
        (fun r => r.language) ∧
      ∀ l ∈ ([c6En, c6Fr].filter (fun r => r.success)).map
          (fun r => r.language),
        langCount (([c6En, c6Fr].filter (fun r => r.success)).map
            (fun r => r.language)) l
          ≤ langCount (([c6En, c6Fr].filter (fun r => r.success)).map
            (fun r => r.language)) m.language := by
  refine C6_language_mode ["en", "fr"] [c6En, c6Fr] ⟨by decide, ?_⟩ (by decide)
  intro s
  simp [c6En, c6Fr]

/-- The flattened timestamp stream of a segment list — start then end of
each segment, in order.  "Monotonically non-decreasing segment times"
means this stream is sorted under ≤. -/
def segTimes (segs : List Segment) : List ℚ :=
  segs.flatMap (fun s => [s.start, s.«end»])

/-- `segTimes` distributes over append. -/
theorem segTimes_append (s t : List Segment) :
    segTimes (s ++ t) = segTimes s ++ segTimes t := by
  simp [segTimes]

/-- `segTimes` of a flattened list of segment lists. -/
theorem segTimes_flatten (L : List (List Segment)) :
    segTimes L.flatten = (L.map segTimes).flatten := by
  induction L with
  | nil => rfl
  | cons s t ih => simp [segTimes_append, ih]

/-- Shifting all segments by `off` shifts every time in the stream. -/
theorem segTimes_shift (off : ℚ) (segs : List Segment) :
    segTimes (shiftSegments off segs)
      = (segTimes segs).map (fun t => t + off) := by
  induction segs with
  | nil => rfl
  | cons s t ih => simp [segTimes, shiftSegments] at ih ⊢; exact ih

/-- When every chunk succeeded, `transcribe_chunks` is exactly the
segment-shifting map. -/
theorem transcribe_chunks_all_success (pairs : List (ChunkInfo × ChunkResult))
    (hsucc : ∀ p ∈ pairs, p.2.success = true) :
    ChunkedProcessor.transcribe_chunks pairs
      = pairs.map (fun p =>
          { p.2 with segments := shiftSegments p.1.start_time p.2.segments }) := by
  unfold ChunkedProcessor.transcribe_chunks
  apply List.map_congr_left
  intro p hp
  simp [hsucc p hp]

/-- Merging chunk-shifted segment streams in chunk order yields a sorted
global stream, provided each chunk's local stream is sorted, local times
stay within the chunk's span, and the chunks come in non-overlapping
increasing order. -/
theorem merged_times_sorted (pairs : List (ChunkInfo × ChunkResult))
    (hloc : ∀ p ∈ pairs, List.Sorted (· ≤ ·) (segTimes p.2.segments))
    (hbnd : ∀ p ∈ pairs, ∀ t ∈ segTimes p.2.segments,
      0 ≤ t ∧ t ≤ p.1.end_time - p.1.start_time)
    (hsep : List.Pairwise (fun p q => p.1.end_time ≤ q.1.start_time) pairs) :
    List.Sorted (· ≤ ·)
      (segTimes ((pairs.map (fun p => shiftSegments p.1.start_time
        p.2.segments)).flatten)) := by
  induction pairs with
  | nil => simp [segTimes]
  | cons p t ih =>
      rw [List.map_cons, List.flatten_cons, segTimes_append]
      have hsep1 := (List.pairwise_cons.mp hsep).1
      have hsept := (List.pairwise_cons.mp hsep).2
      apply (List.pairwise_append).mpr
      refine ⟨?_, ?_, ?_⟩
      · rw [segTimes_shift]
        exact List.Pairwise.map _ (fun a b hab => by linarith)
          (hloc p (by simp))
      · exact ih (fun q hq => hloc q (by simp [hq]))
          (fun q hq => hbnd q (by simp [hq])) hsept
      · intro a ha b hb
        rw [segTimes_shift] at ha
        obtain ⟨u, hu, rfl⟩ := List.mem_map.mp ha
        rw [segTimes_flatten, List.mem_flatten] at hb
        obtain ⟨l, hl, hbl⟩ := hb
        rw [List.mem_map] at hl
        obtain ⟨sh, hsh, rfl⟩ := hl
        rw [List.mem_map] at hsh
        obtain ⟨q, hq, rfl⟩ := hsh
        rw [segTimes_shift] at hbl
        obtain ⟨v, hv, rfl⟩ := List.mem_map.mp hbl
        have h1 := (hbnd p (by simp) u hu).2
        have h2 := (hbnd q (by simp [hq]) v hv).1
        have h3 := hsep1 q hq
        linarith

/-- Equation lemma: the merged segments field. -/
theorem merge_success_segments (set_order : List String)
    (chunk_results successful_results : List ChunkResult) :
    (ChunkedProcessor.merge_success set_order chunk_results
      successful_results).segments
      = (successful_results.map (fun r => r.segments)).flatten := rfl

/-- Equation lemma: the merged text field. -/
theorem merge_success_text (set_order : List String)
    (chunk_results successful_results : List ChunkResult) :
    (ChunkedProcessor.merge_success set_order chunk_results
      successful_results).text
      = String.intercalate " "
        ((successful_results.filter (fun r => r.text != "")).map
          (fun r => r.text.trim)) := rfl

/-- Equation lemma: the merged confidence field. -/
theorem merge_success_confidence (set_order : List String)
    (chunk_results successful_results : List ChunkResult) :
    (ChunkedProcessor.merge_success set_order chunk_results
      successful_results).confidence
      = round3 ((successful_results.map (fun r => r.confidence)).sum /
          (successful_results.length : ℚ)) := rfl

/-- Equation lemma: the merged word count field. -/
theorem merge_success_word_count (set_order : List String)
    (chunk_results successful_results : List ChunkResult) :
    (ChunkedProcessor.merge_success set_order chunk_results
      successful_results).word_count
      = (successful_results.map (fun r => r.word_count)).sum := rfl

/-- C5 (amended): merging the (all-successful) shifted chunk results in
chunk order produces: segments equal to the concatenation of each chunk's
segments shifted by that chunk's `start_time` (source-global times, and
sorted whenever each chunk's local stream is sorted, stays within the
chunk's span, and the chunks are in non-overlapping increasing order);
text equal to the stripped non-empty chunk texts joined by a single space;
confidence equal to the arithmetic mean of the per-chunk confidences
rounded to 3 decimal places (not the exact mean — see the counterexample);
and word count equal to the sum of the per-chunk word counts. -/
theorem C5_merge_of_shifted (set_order : List String)
    (pairs : List (ChunkInfo × ChunkResult))
    (hsucc : ∀ p ∈ pairs, p.2.success = true)
    (hne : pairs ≠ []) :
    ∃ m, ChunkedProcessor.merge_results set_order
        (ChunkedProcessor.transcribe_chunks pairs) = MergeOutput.ok m ∧
      m.segments = (pairs.map (fun p =>
        shiftSegments p.1.start_time p.2.segments)).flatten ∧
      m.text = String.intercalate " "
        (((pairs.map (fun p => p.2)).filter (fun r => r.text != "")).map
          (fun r => r.text.trim)) ∧
      m.confidence = round3 ((pairs.map (fun p => p.2.confidence)).sum /
        (pairs.length : ℚ)) ∧
      m.word_count = (pairs.map (fun p => p.2.word_count)).sum ∧
      ((∀ p ∈ pairs, List.Sorted (· ≤ ·) (segTimes p.2.segments)) →
       (∀ p ∈ pairs, ∀ t ∈ segTimes p.2.segments,
          0 ≤ t ∧ t ≤ p.1.end_time - p.1.start_time) →
       List.Pairwise (fun p q => p.1.end_time ≤ q.1.start_time) pairs →
       List.Sorted (· ≤ ·) (segTimes m.segments)) := by
  rw [transcribe_chunks_all_success pairs hsucc]
  have hfs : (pairs.map (fun p : ChunkInfo × ChunkResult =>
      ({ p.2 with segments := shiftSegments p.1.start_time p.2.segments }
        : ChunkResult))).filter (fun r => r.success)
      = pairs.map (fun p : ChunkInfo × ChunkResult =>
        ({ p.2 with segments := shiftSegments p.1.start_time p.2.segments }
          : ChunkResult)) := by
    rw [List.filter_eq_self]
    intro b hb
    obtain ⟨p, hp, rfl⟩ := List.mem_map.mp hb
    simpa using hsucc p hp
  have hcr : (pairs.map (fun p : ChunkInfo × ChunkResult =>
      ({ p.2 with segments := shiftSegments p.1.start_time p.2.segments }
        : ChunkResult))).isEmpty = false := by
    cases pairs with
    | nil => exact absurd rfl hne
    | cons a t => rfl
  have hne2 : ((pairs.map (fun p : ChunkInfo × ChunkResult =>
      ({ p.2 with segments := shiftSegments p.1.start_time p.2.segments }
        : ChunkResult))).filter (fun r => r.success)).isEmpty = false := by
    rw [hfs]; exact hcr
  refine ⟨ChunkedProcessor.merge_success set_order
      (pairs.map (fun p : ChunkInfo × ChunkResult =>
        ({ p.2 with segments := shiftSegments p.1.start_time p.2.segments }
          : ChunkResult)))
      ((pairs.map (fun p : ChunkInfo × ChunkResult =>
        ({ p.2 with segments := shiftSegments p.1.start_time p.2.segments }
          : ChunkResult))).filter (fun r => r.success)),
    ?_, ?_, ?_, ?_, ?_, ?_⟩
  · simp [ChunkedProcessor.merge_results, hcr, hne2]
  · rw [merge_success_segments, hfs, List.map_map]
    rfl
  · rw [merge_success_text, hfs, List.filter_map, List.filter_map,
      List.map_map, List.map_map]
    rfl
  · rw [merge_success_confidence, hfs, List.map_map, List.length_map]
    rfl
  · rw [merge_success_word_count, hfs, List.map_map]
    rfl
  · intro hloc hbnd hsep
    rw [merge_success_segments, hfs, List.map_map]
    have heq : pairs.map ((fun r : ChunkResult => r.segments) ∘
        (fun p : ChunkInfo × ChunkResult =>
          ({ p.2 with segments := shiftSegments p.1.start_time p.2.segments }
            : ChunkResult)))
        = pairs.map (fun p => shiftSegments p.1.start_time p.2.segments) := rfl
    rw [heq]
    exact merged_times_sorted pairs hloc hbnd hsep

/-- `roundHalfEven` rounds up when the fractional part exceeds one half. -/
theorem roundHalfEven_eq_of_half_lt (q : ℚ) (z : ℤ) (hf : ⌊q⌋ = z)
    (h1 : 1 / 2 < q - (z : ℚ)) : roundHalfEven q = z + 1 := by
  simp only [roundHalfEven]
  rw [hf]
  rw [if_neg (by linarith), if_pos h1]

/-- `round(2/3, 3)` is `0.667`, not `2/3`. -/
theorem round3_two_thirds : round3 (2 / 3) = 667 / 1000 := by
  have hx : (2 : ℚ) / 3 * 1000 = 2000 / 3 := by norm_num
  have hfloor : ⌊(2000 : ℚ) / 3⌋ = 666 := by
    rw [Int.floor_eq_iff]
    constructor <;> norm_num
  have h := roundHalfEven_eq_of_half_lt ((2000 : ℚ) / 3) 666 hfloor (by norm_num)
  unfold round3
  rw [hx, h]
  norm_num

/-- A successful chunk result with the given confidence. -/
def c5r (conf : ℚ) : ChunkResult :=
  { success := true, text := "w", segments := [], language := "en",
    confidence := conf, processing_time := 0, word_count := 1 }

/-- Three successful chunks with confidences 1, 1, 0. -/
def c5L : List (ChunkInfo × ChunkResult) :=
  [({ index := 0, start_time := 0, end_time := 2, duration := 2 }, c5r 1),
   ({ index := 1, start_time := 2, end_time := 4, duration := 2 }, c5r 1),
   ({ index := 2, start_time := 4, end_time := 6, duration := 2 }, c5r 0)]

/-- C5 counterexample: on three successful chunks with confidences
1, 1, 0 the merged confidence is `round(mean, 3) = 0.667`, which differs
from the arithmetic mean `2/3` the claim asserts (the code rounds the
mean to 3 decimal places, chunked_processor.py line 288). -/
theorem C5_counterexample :
    (∀ p ∈ c5L, p.2.success = true) ∧
    (match ChunkedProcessor.merge_results ["en"]
        (ChunkedProcessor.transcribe_chunks c5L) with
     | MergeOutput.ok m => m.confidence
     | MergeOutput.failure _ => 37)
      = 667 / 1000 ∧
    ((667 : ℚ) / 1000)
      ≠ (c5L.map (fun p => p.2.confidence)).sum / (c5L.length : ℚ) := by
  refine ⟨by decide, ?_, by norm_num [c5L, c5r]⟩
  have e1 : ChunkedProcessor.merge_results ["en"]
      (ChunkedProcessor.transcribe_chunks c5L)
      = MergeOutput.ok (ChunkedProcessor.merge_success ["en"]
          (ChunkedProcessor.transcribe_chunks c5L)
          ((ChunkedProcessor.transcribe_chunks c5L).filter
            (fun r => r.success))) := rfl
  rw [e1]
  show (ChunkedProcessor.merge_success ["en"]
      (ChunkedProcessor.transcribe_chunks c5L)
      ((ChunkedProcessor.transcribe_chunks c5L).filter
        (fun r => r.success))).confidence = 667 / 1000
  rw [merge_success_confidence]
  have e2 : (((ChunkedProcessor.transcribe_chunks c5L).filter
      (fun r => r.success)).map (fun r => r.confidence)).sum = 2 := by
    norm_num [ChunkedProcessor.transcribe_chunks, c5L, c5r, shiftSegments]
  have e3 : ((((ChunkedProcessor.transcribe_chunks c5L).filter
      (fun r => r.success)).length : ℕ) : ℚ) = 3 := by
    norm_num [ChunkedProcessor.transcribe_chunks, c5L, c5r, shiftSegments]
  rw [e2, e3]
  rw [show (2 : ℚ) / 3 = 2 / 3 from rfl]
  exact round3_two_thirds

/-- Two successful chunks with in-span sorted segments, spanning
[0, 2] and [2, 4]. -/
def c5W : List (ChunkInfo × ChunkResult) :=
  [({ index := 0, start_time := 0, end_time := 2, duration := 2 },
    { success := true, text := "hello", segments := [{ start := 0, «end» := 1 }],
      language := "en", confidence := 1, processing_time := 0, word_count := 1 }),
   ({ index := 1, start_time := 2, end_time := 4, duration := 2 },
    { success := true, text := "world", segments := [{ start := 0, «end» := 2 }],
      language := "en", confidence := 1, processing_time := 0, word_count := 1 })]

/-- C5 witness: the amended merge equations and sortedness at the concrete
two-chunk input `c5W`. -/
theorem C5_merge_of_shifted_witness :
    ∃ m, ChunkedProcessor.merge_results ["en"]
        (ChunkedProcessor.transcribe_chunks c5W) = MergeOutput.ok m ∧
      m.segments = (c5W.map (fun p =>
        shiftSegments p.1.start_time p.2.segments)).flatten ∧
      m.text = String.intercalate " "
        (((c5W.map (fun p => p.2)).filter (fun r => r.text != "")).map
          (fun r => r.text.trim)) ∧
      m.confidence = round3 ((c5W.map (fun p => p.2.confidence)).sum /
        (c5W.length : ℚ)) ∧
      m.word_count = (c5W.map (fun p => p.2.word_count)).sum ∧
      List.Sorted (· ≤ ·) (segTimes m.segments) := by
  obtain ⟨m, h1, h2, h3, h4, h5, h6⟩ :=
    C5_merge_of_shifted ["en"] c5W (by decide) (by decide)
  refine ⟨m, h1, h2, h3, h4, h5, h6 ?_ ?_ ?_⟩
  · intro p hp
    simp only [c5W, List.mem_cons, List.mem_singleton] at hp
    rcases hp with rfl | rfl | hfalse
    · simp [segTimes, List.sorted_cons]
    · simp [segTimes, List.sorted_cons]
    · simp at hfalse
  · intro p hp
    simp only [c5W, List.mem_cons, List.mem_singleton] at hp
    rcases hp with rfl | rfl | hfalse
    · intro t ht
      simp [segTimes] at ht
      rcases ht with rfl | rfl <;> norm_num
    · intro t ht
      simp [segTimes] at ht
      rcases ht with rfl | rfl <;> norm_num
    · simp at hfalse
  · simp only [c5W, List.pairwise_cons]
    refine ⟨?_, ?_, List.Pairwise.nil⟩
    · intro q hq
      simp only [List.mem_singleton] at hq
      subst hq
      norm_num
    · intro q hq
      simp at hq

/-- The buffer duration is below the 5-second threshold iff the byte count
is below `10 * sample_rate` (16-bit mono: 2 bytes per sample). -/
theorem get_duration_lt_five_iff (sr : ℕ) (hs : 0 < sr)
    (chunks : List (List ℕ)) :
    (AudioBuffer.get_duration
        { sample_rate := sr, channels := 1, bytes_per_sample := 2,
          chunks := chunks } < 5)
      ↔ (chunks.map List.length).sum < 10 * sr := by
  have hsq : (0 : ℚ) < (sr : ℚ) := by exact_mod_cast hs
  unfold AudioBuffer.get_duration AudioBuffer.totalBytes
  push_cast
  rw [div_one, div_lt_iff₀ hsq, div_lt_iff₀ (by norm_num : (0 : ℚ) < 2)]
  constructor
  · intro h
    have h2 : (((chunks.map List.length).sum : ℕ) : ℚ) < 10 * sr := by
      push_cast
      linarith
    exact_mod_cast h2
  · intro h
    have h2 : (((chunks.map List.length).sum : ℕ) : ℚ) < 10 * sr := by
      exact_mod_cast h
    push_cast at h2
    linarith

/-- The buffer duration exceeds the 1-second overlap iff the byte count
exceeds `2 * sample_rate`. -/
theorem one_lt_get_duration_iff (sr : ℕ) (hs : 0 < sr)
    (chunks : List (List ℕ)) :
    (1 < AudioBuffer.get_duration
        { sample_rate := sr, channels := 1, bytes_per_sample := 2,
          chunks := chunks })
      ↔ 2 * sr < (chunks.map List.length).sum := by
  have hsq : (0 : ℚ) < (sr : ℚ) := by exact_mod_cast hs
  unfold AudioBuffer.get_duration AudioBuffer.totalBytes
  push_cast
  rw [div_one, lt_div_iff₀ hsq, lt_div_iff₀ (by norm_num : (0 : ℚ) < 2)]
  constructor
  · intro h
    have h2 : ((2 * sr : ℕ) : ℚ) < ((chunks.map List.length).sum : ℕ) := by
      push_cast
      linarith
    exact_mod_cast h2
  · intro h
    have h2 : ((2 * sr : ℕ) : ℚ) < (((chunks.map List.length).sum : ℕ) : ℚ) := by
      exact_mod_cast h
    push_cast at h2
    linarith

/-- `shift(1.0)` on a 16-bit mono buffer holding at least `10*sr` bytes
(5 seconds) collapses the buffer to the trailing `2*sr` bytes — the last
1 second of audio. -/
theorem shift_one_overlap (sr : ℕ) (hs : 0 < sr) (chunks : List (List ℕ))
    (hge : 10 * sr ≤ (chunks.map List.length).sum) :
    AudioBuffer.shift
        { sample_rate := sr, channels := 1, bytes_per_sample := 2,
          chunks := chunks } 1
      = { sample_rate := sr, channels := 1, bytes_per_sample := 2,
          chunks := [chunks.flatten.drop (chunks.flatten.length - 2 * sr)] } := by
  have hlen : chunks.flatten.length = (chunks.map List.length).sum :=
    List.length_flatten chunks
  have hdur : 1 < AudioBuffer.get_duration
      { sample_rate := sr, channels := 1, bytes_per_sample := 2,
        chunks := chunks } :=
    (one_lt_get_duration_iff sr hs chunks).mpr (by omega)
  have hkeep : pyInt ((1 : ℚ) * (sr : ℚ) * ((1 : ℕ) : ℚ) * ((2 : ℕ) : ℚ))
      = 2 * sr := by
    have : (1 : ℚ) * (sr : ℚ) * ((1 : ℕ) : ℚ) * ((2 : ℕ) : ℚ)
        = ((2 * sr : ℕ) : ℚ) := by
      push_cast
      ring
    rw [pyInt, this, Int.floor_natCast]
    rfl
  unfold AudioBuffer.shift
  rw [if_neg (by exact not_le.mpr hdur)]
  show (if pyInt _ < (AudioBuffer.get_audio_data _).length then _ else _) = _
  have hdata : AudioBuffer.get_audio_data
      { sample_rate := sr, channels := 1, bytes_per_sample := 2,
        chunks := chunks } = chunks.flatten := rfl
  rw [hdata, hkeep, if_pos (by omega)]
  rw [pySliceLast, if_neg (by omega)]

/-- A push that keeps the accumulated duration below the threshold fires
nothing and only appends to the buffer. -/
theorem process_audio_chunk_no_fire (sr : ℕ) (hs : 0 < sr)
    (acc : List (List ℕ)) (q : List ℕ)
    (h : (acc.map List.length).sum + q.length < 10 * sr) :
    StreamingTranscriber.process_audio_chunk
        { chunk_duration := 5, overlap_duration := 1,
          buffer := { sample_rate := sr, channels := 1, bytes_per_sample := 2,
                      chunks := acc } } q
      = (false,
         { chunk_duration := 5, overlap_duration := 1,
           buffer := { sample_rate := sr, channels := 1, bytes_per_sample := 2,
                       chunks := acc ++ [q] } }) := by
  unfold StreamingTranscriber.process_audio_chunk AudioBuffer.add_chunk
  rw [if_pos]
  exact (get_duration_lt_five_iff sr hs (acc ++ [q])).mpr (by
    rw [List.map_append, List.sum_append]
    simpa using h)

/-- Feeding pushes whose total stays below the threshold fires nothing and
accumulates everything in the buffer. -/
theorem processAll_no_fire (sr : ℕ) (hs : 0 < sr) (ps : List (List ℕ)) :
    ∀ acc : List (List ℕ),
      (acc.map List.length).sum + (ps.map List.length).sum < 10 * sr →
      StreamingTranscriber.processAll
          { chunk_duration := 5, overlap_duration := 1,
            buffer := { sample_rate := sr, channels := 1,
                        bytes_per_sample := 2, chunks := acc } } ps
        = (0,
           { chunk_duration := 5, overlap_duration := 1,
             buffer := { sample_rate := sr, channels := 1,
                         bytes_per_sample := 2, chunks := acc ++ ps } }) := by
  induction ps with
  | nil =>
      intro acc h
      simp [StreamingTranscriber.processAll]
  | cons q t ih =>
      intro acc h
      have hsum : ((q :: t).map List.length).sum
          = q.length + (t.map List.length).sum := by simp
      have hq : (acc.map List.length).sum + q.length < 10 * sr := by omega
      have hstep := process_audio_chunk_no_fire sr hs acc q hq
      unfold StreamingTranscriber.processAll
      rw [List.foldl_cons]
      simp only [hstep, Bool.false_eq_true, if_false, Nat.add_zero]
      have ht : ((acc ++ [q]).map List.length).sum
          + (t.map List.length).sum < 10 * sr := by
        rw [List.map_append, List.sum_append]
        simp only [List.map_cons, List.map_nil, List.sum_cons, List.sum_nil]
        omega
      have hih := ih (acc ++ [q]) ht
      unfold StreamingTranscriber.processAll at hih
      rw [hih, List.append_assoc]
      rfl

/-- C7: starting from a fresh streaming transcriber (5-second trigger,
1-second overlap, 16-bit mono), a sequence of pushes whose total stays
below the 5-second threshold fires no transcription and accumulates
everything; the push that brings the total to at least the threshold fires
exactly one transcription over the whole run, and afterwards the buffer
holds exactly the trailing `2 * sample_rate` bytes of all pushed audio —
the last 1 second — with `get_duration` exactly 1. -/
theorem C7_streaming_trigger (sample_rate : ℕ) (hs : 0 < sample_rate)
    (ps : List (List ℕ)) (p : List ℕ)
    (h1 : (ps.map List.length).sum < 10 * sample_rate)
    (h2 : 10 * sample_rate ≤ (ps.map List.length).sum + p.length) :
    (StreamingTranscriber.processAll
      (StreamingTranscriber.init sample_rate 5) ps).1 = 0 ∧
    (StreamingTranscriber.processAll
      (StreamingTranscriber.init sample_rate 5) ps).2.buffer.chunks = ps ∧
    (StreamingTranscriber.processAll
      (StreamingTranscriber.init sample_rate 5) (ps ++ [p])).1 = 1 ∧
    (StreamingTranscriber.processAll
      (StreamingTranscriber.init sample_rate 5) (ps ++ [p])).2.buffer.chunks
      = [(ps.flatten ++ p).drop ((ps.flatten ++ p).length - 2 * sample_rate)] ∧
    (StreamingTranscriber.processAll
      (StreamingTranscriber.init sample_rate 5)
        (ps ++ [p])).2.buffer.get_duration = 1 := by
  have hsumfull : ((ps ++ [p]).map List.length).sum
      = (ps.map List.length).sum + p.length := by
    rw [List.map_append, List.sum_append]
    simp
  have hps := processAll_no_fire sample_rate hs ps [] (by simpa using h1)
  simp only [List.nil_append] at hps
  have hstep : StreamingTranscriber.process_audio_chunk
      { chunk_duration := 5, overlap_duration := 1,
        buffer := { sample_rate := sample_rate, channels := 1,
                    bytes_per_sample := 2, chunks := ps } } p
      = (true,
         { chunk_duration := 5, overlap_duration := 1,
           buffer := { sample_rate := sample_rate, channels := 1,
                       bytes_per_sample := 2,
                       chunks := [(ps.flatten ++ p).drop
                         ((ps.flatten ++ p).length - 2 * sample_rate)] } }) := by
    unfold StreamingTranscriber.process_audio_chunk AudioBuffer.add_chunk
    rw [if_neg (by
      rw [get_duration_lt_five_iff sample_rate hs (ps ++ [p]), hsumfull]
      omega)]
    rw [shift_one_overlap sample_rate hs (ps ++ [p]) (by rw [hsumfull]; omega)]
    have hfl : (ps ++ [p]).flatten = ps.flatten ++ p := by
      rw [List.flatten_append]
      simp
    rw [hfl]
  have hfull : StreamingTranscriber.processAll
      (StreamingTranscriber.init sample_rate 5) (ps ++ [p])
      = (1,
         { chunk_duration := 5, overlap_duration := 1,
           buffer := { sample_rate := sample_rate, channels := 1,
                       bytes_per_sample := 2,
                       chunks := [(ps.flatten ++ p).drop
                         ((ps.flatten ++ p).length - 2 * sample_rate)] } }) := by
    show StreamingTranscriber.processAll
      { chunk_duration := 5, overlap_duration := 1,
        buffer := { sample_rate := sample_rate, channels := 1,
                    bytes_per_sample := 2, chunks := [] } } (ps ++ [p]) = _
    unfold StreamingTranscriber.processAll
    rw [List.foldl_append]
    unfold StreamingTranscriber.processAll at hps
    rw [hps, List.foldl_cons, List.foldl_nil]
    simp only [hstep]
    rfl
  have hdlen : ((ps.flatten ++ p).drop
      ((ps.flatten ++ p).length - 2 * sample_rate)).length = 2 * sample_rate := by
    rw [List.length_drop]
    have hge : 2 * sample_rate ≤ (ps.flatten ++ p).length := by
      rw [List.length_append, List.length_flatten]
      omega
    omega
  have hps0 : StreamingTranscriber.processAll
      (StreamingTranscriber.init sample_rate 5) ps
      = (0,
         { chunk_duration := 5, overlap_duration := 1,
           buffer := { sample_rate := sample_rate, channels := 1,
                       bytes_per_sample := 2, chunks := ps } }) := hps
  refine ⟨by rw [hps0], by rw [hps0], by rw [hfull], by rw [hfull], ?_⟩
  rw [hfull]
  show AudioBuffer.get_duration _ = 1
  unfold AudioBuffer.get_duration AudioBuffer.totalBytes
  simp only [List.map_cons, List.map_nil, List.sum_cons, List.sum_nil,
    Nat.add_zero, hdlen]
  have hsq : ((sample_rate : ℕ) : ℚ) ≠ 0 := by
    exact_mod_cast Nat.pos_iff_ne_zero.mp hs
  push_cast
  rw [div_one]
  field_simp

/-- C7 witness: at sample rate 2 (threshold 20 bytes, overlap 4 bytes), a
16-byte push (4 s) fires nothing; the following 5-byte push reaches 21
bytes (5.25 s), fires exactly one transcription, and leaves exactly the
last 4 bytes — 1 second — in the buffer. -/
theorem C7_streaming_trigger_witness :
    (StreamingTranscriber.processAll (StreamingTranscriber.init 2 5)
      [List.replicate 16 0]).1 = 0 ∧
    (StreamingTranscriber.processAll (StreamingTranscriber.init 2 5)
      ([List.replicate 16 0] ++ [List.replicate 5 1])).1 = 1 ∧
    (StreamingTranscriber.processAll (StreamingTranscriber.init 2 5)
      ([List.replicate 16 0] ++ [List.replicate 5 1])).2.buffer.chunks
      = [[1, 1, 1, 1]] ∧
    (StreamingTranscriber.processAll (StreamingTranscriber.init 2 5)
      ([List.replicate 16 0] ++ [List.replicate 5 1])).2.buffer.get_duration
      = 1 := by
  have h := C7_streaming_trigger 2 (by decide) [List.replicate 16 0]
    (List.replicate 5 1) (by decide) (by decide)
  refine ⟨h.1, h.2.2.1, ?_, h.2.2.2.2⟩
  rw [h.2.2.2.1]
  decide

/-- C8 counterexample: the duration invariant is not preserved by
`cleanup` — on a fresh session (sample rate 1) receiving one 2-byte chunk
(1 second) and then `cleanup()`, the chunk list is cleared but
`total_duration` keeps the value 1, so `total_duration` no longer equals
the sum of the durations of the chunks currently held. -/
theorem C8_counterexample :
    ¬ durationInvariant
      (RecordingSession.applyOps (RecordingSession.create "s1" 1 "/t/s1" 0)
        [SessionOp.add [0, 0], SessionOp.cleanup]) := by
  simp [durationInvariant, RecordingSession.applyOps, RecordingSession.applyOp,
    RecordingSession.create, RecordingSession.add_chunk,
    RecordingSession.cleanup, pad4]

/-- One non-cleanup operation preserves the duration invariant. -/
theorem applyOp_preserves_invariant (s : RecordingSession) (op : SessionOp)
    (hop : op ≠ SessionOp.cleanup) (h : durationInvariant s) :
    durationInvariant (s.applyOp op) := by
  cases op with
  | add d =>
      unfold durationInvariant at h ⊢
      simp only [RecordingSession.applyOp, RecordingSession.add_chunk,
        List.map_append, List.sum_append, List.map_cons, List.map_nil,
        List.sum_cons, List.sum_nil]
      rw [h]
      ring
  | pause t now =>
      simpa [RecordingSession.applyOp, RecordingSession.pause_session,
        durationInvariant] using h
  | resume =>
      simpa [RecordingSession.applyOp, RecordingSession.resume_session,
        durationInvariant] using h
  | cleanup => exact absurd rfl hop

/-- A cleanup-free operation sequence preserves the duration invariant. -/
theorem applyOps_preserves_invariant (ops : List SessionOp) :
    ∀ s : RecordingSession, durationInvariant s →
      (∀ op ∈ ops, op ≠ SessionOp.cleanup) →
      durationInvariant (s.applyOps ops) := by
  induction ops with
  | nil => intro s h _; exact h
  | cons op t ih =>
      intro s h hnc
      have h1 := applyOp_preserves_invariant s op (hnc op (by simp)) h
      exact ih (s.applyOp op) h1 (fun o ho => hnc o (by simp [ho]))

/-- C8 (amended): starting from a fresh session, `total_duration` equals
the sum of the held chunks' durations after every sequence of `add_chunk`,
`pause_session` and `resume_session` operations; `cleanup` however clears
the chunk list while leaving `total_duration` unchanged, so the equality
does not survive cleanup (unless no audio was ever added). -/
theorem C8_duration_invariant (session_id : String) (sample_rate : ℕ)
    (temp_dir : String) (now : ℚ) (ops : List SessionOp)
    (hnc : ∀ op ∈ ops, op ≠ SessionOp.cleanup) :
    durationInvariant (RecordingSession.applyOps
      (RecordingSession.create session_id sample_rate temp_dir now) ops) ∧
    (RecordingSession.cleanup (RecordingSession.applyOps
      (RecordingSession.create session_id sample_rate temp_dir now)
      ops)).chunks = [] ∧
    (RecordingSession.cleanup (RecordingSession.applyOps
      (RecordingSession.create session_id sample_rate temp_dir now)
      ops)).total_duration
      = (RecordingSession.applyOps
          (RecordingSession.create session_id sample_rate temp_dir now)
          ops).total_duration := by
  refine ⟨?_, rfl, rfl⟩
  apply applyOps_preserves_invariant ops _ _ hnc
  simp [durationInvariant, RecordingSession.create]

/-- C8 witness: the amended invariant over a concrete sequence — two adds
around a pause/resume pair — and the cleanup facts at the reached state. -/
theorem C8_duration_invariant_witness :
    durationInvariant (RecordingSession.applyOps
      (RecordingSession.create "w8" 1 "/t/w8" 0)
      [SessionOp.add [0, 0], SessionOp.pause "text" 5, SessionOp.resume,
       SessionOp.add [0, 0, 0, 0]]) ∧
    (RecordingSession.cleanup (RecordingSession.applyOps
      (RecordingSession.create "w8" 1 "/t/w8" 0)
      [SessionOp.add [0, 0], SessionOp.pause "text" 5, SessionOp.resume,
       SessionOp.add [0, 0, 0, 0]])).chunks = [] ∧
    (RecordingSession.cleanup (RecordingSession.applyOps
      (RecordingSession.create "w8" 1 "/t/w8" 0)
      [SessionOp.add [0, 0], SessionOp.pause "text" 5, SessionOp.resume,
       SessionOp.add [0, 0, 0, 0]])).total_duration
      = (RecordingSession.applyOps
          (RecordingSession.create "w8" 1 "/t/w8" 0)
          [SessionOp.add [0, 0], SessionOp.pause "text" 5, SessionOp.resume,
           SessionOp.add [0, 0, 0, 0]]).total_duration :=
  C8_duration_invariant "w8" 1 "/t/w8" 0
    [SessionOp.add [0, 0], SessionOp.pause "text" 5, SessionOp.resume,
     SessionOp.add [0, 0, 0, 0]]
    (by intro op hop; fin_cases hop <;> simp)

/-- C9: `cleanup` is idempotent — a second `cleanup()` on an
already-cleaned session changes nothing (and raises nothing: every step
is total) — after cleanup none of the session's chunk files still exists,
and `SessionManager.remove_session` on an absent session id leaves the
registry untouched (`pop(session_id, None)` finds nothing and is a
no-op). -/
theorem C9_cleanup_idempotent (s : RecordingSession)
    (sessions : List (String × RecordingSession)) (session_id : String)
    (habs : sessions.lookup session_id = none) :
    RecordingSession.cleanup (RecordingSession.cleanup s)
      = RecordingSession.cleanup s ∧
    (∀ c ∈ s.chunks, c.path ∉ (RecordingSession.cleanup s).files) ∧
    SessionManager.remove_session sessions session_id = sessions := by
  refine ⟨?_, ?_, ?_⟩
  · unfold RecordingSession.cleanup
    simp [Bool.and_assoc]
  · intro c hc hmem
    unfold RecordingSession.cleanup at hmem
    simp only [List.mem_filter] at hmem
    have h2 := hmem.2
    simp only [Bool.not_eq_true', List.any_eq_false] at h2
    exact (h2 c hc) (beq_self_eq_true c.path)
  · unfold SessionManager.remove_session
    rw [habs]

/-- A fresh session with one 2-byte chunk added, for the C9 witness. -/
def c9s : RecordingSession :=
  (RecordingSession.add_chunk (RecordingSession.create "a" 1 "/t/a" 0) [0, 0]).2

/-- C9 witness: double cleanup of the one-chunk session `c9s` equals a
single cleanup, and removing the absent id `missing` from a one-entry
registry returns it unchanged. -/
theorem C9_cleanup_idempotent_witness :
    RecordingSession.cleanup (RecordingSession.cleanup c9s)
      = RecordingSession.cleanup c9s ∧
    SessionManager.remove_session [("a", c9s)] "missing" = [("a", c9s)] := by
  have h := C9_cleanup_idempotent c9s [("a", c9s)] "missing" (by rfl)
  exact ⟨h.1, h.2.2⟩

/-- C10: `pause_session("")` only marks the session paused and stamps
`paused_at` — the stored transcript survives (an empty argument never
erases it) and every other field (chunks, total_duration, files, ...) is
untouched — and a subsequent `resume_session` returns exactly the
preserved duration and transcript. -/
theorem C10_pause_empty_frame (s : RecordingSession) (now : ℚ) :
    RecordingSession.pause_session s "" now
      = { s with is_paused := true, paused_at := some now } ∧
    (RecordingSession.resume_session
      (RecordingSession.pause_session s "" now)).2
      = (s.total_duration, s.transcript_text) := by
  constructor
  · simp [RecordingSession.pause_session]
  · simp [RecordingSession.pause_session, RecordingSession.resume_session]
